import Mathlib

/-!
Shallow embedding of `denormalized/tracker.py` (django-denormalized).

The core of the repository is `DenormalizedTracker.track_changes`, which
receives a child instance together with `created` / `deleted` flags, reads the
pre-mutation snapshot stashed on the instance under
`_denormalized_previous_version`, and returns an iterable of
`(parent instance, {field: F(field) + delta * sign})` incremental updates.

Modelling decisions (all driven by the source, `tracker.py`):
* parent instances are identified by a natural number (Django compares model
  instances by primary key), and a child's foreign-key attribute either
  resolves to a parent, is null, or raises `ObjectDoesNotExist` (the
  cascade-delete case caught at lines 26-30 and 40-43 of the source);
* the single SUM source attribute (`points` in the test project) is either a
  concrete integer or an unresolved `CombinedExpression` whose persisted value
  is reloaded by `refresh_from_db`;
* the value of an update dict `{self.field: F(self.field) + delta * sign}` is a
  `FieldExpr`: either a `CombinedExpression` relative increment (`combined`) or
  an absolute replacement value (`literal`); the tracker only ever builds the
  former;
* `NotImplementedError` raised by `_get_delta` for unsupported aggregates is
  the `Except` error; `ObjectDoesNotExist` never escapes `track_changes`, so it
  does not appear in the error type.
-/

/-- Identifier of a parent row (Django model instances compare by pk). -/
abbrev ParentId := Nat

/-- Identifier of a child row. -/
abbrev ChildId := Nat

/-- The in-memory value of the SUM source attribute: either a concrete number
or an unresolved additive `CombinedExpression` whose persisted (database)
value is `db`. -/
inductive AttrVal where
  | concrete (v : Int)
  | unresolved (db : Int)
deriving DecidableEq, Repr

/-- `refresh_from_db` for the source attribute: reloads the persisted value. -/
def AttrVal.refresh_from_db : AttrVal → AttrVal
  | .concrete v => .concrete v
  | .unresolved db => .concrete db

/-- The numeric value an attribute stands for (the persisted value when the
in-memory value is an unresolved expression). -/
def AttrVal.resolve : AttrVal → Int
  | .concrete v => v
  | .unresolved db => db

/-- The child's foreign-key attribute: resolves to a parent, is null, or
raises `ObjectDoesNotExist` (parent row concurrently removed). -/
inductive ParentRef where
  | present (p : ParentId)
  | null
  | missing
deriving DecidableEq, Repr

/-- A child record's field values, named after the test project's `Member`
model: `group` is the relation to the parent, `points` the SUM source
attribute, `active` the flag the eligibility callbacks of the test project
inspect. -/
structure ChildState where
  group : ParentRef
  points : AttrVal
  active : Bool
deriving DecidableEq, Repr

/-- The aggregate kind of a tracker: `Count`, `Sum(attr)`, or any other
aggregate (rejected by `_get_delta` with `NotImplementedError`). -/
inductive Aggregate where
  | count
  | sum
  | other
deriving DecidableEq, Repr

/-- `DenormalizedTracker.__init__`: the tracked field's name, the aggregate,
and the per-instance eligibility callback.  The declarative `query` filter is
not modelled: `track_changes` never reads it (it only drives bulk recompute
scans). -/
structure DenormalizedTracker where
  field : String
  aggregate : Aggregate
  callback : ChildState → Bool

/-- `NotImplementedError` raised by `_get_delta` (tracker.py line 75). -/
inductive TrackError where
  | notImplemented
deriving DecidableEq, Repr

/-- The value stored in an incremental-update dict for the tracked field:
a relative `CombinedExpression` `F(field) + d`, or an absolute value.  The
tracker only ever constructs the relative form. -/
inductive FieldExpr where
  | combined (d : Int)
  | literal (v : Int)
deriving DecidableEq, Repr

/-- Evaluating a field expression at write time against the currently stored
value `cur` of the field. -/
def FieldExpr.eval : FieldExpr → Int → Int
  | .combined d, cur => cur + d
  | .literal v, _ => v

/-- A single-field incremental-updates dict `{field_name: expr}`. -/
abbrev IncrementalUpdates := String × FieldExpr

/-- One element of the iterable returned by `track_changes`:
`(parent instance, updates dict)`. -/
abbrev Adjustment := ParentId × IncrementalUpdates

/-- `getattr(instance, self.foreign_key)` wrapped in the `try/except
ObjectDoesNotExist` of tracker.py lines 26-30 / 40-43: a missing related row
is caught and treated as no parent. -/
def resolveForeign (s : ChildState) : Option ParentId :=
  match s.group with
  | .present p => some p
  | .null => none
  | .missing => none

/-- Python's implicit bool-to-int coercion used in
`sign = is_suitable - old_suitable` (tracker.py line 45). -/
def b2i : Bool → Int
  | true => 1
  | false => 0

/-- `DenormalizedTracker._update_value` (tracker.py lines 59-63): returns
`None` when the delta is zero or the parent reference is absent, else the
`(parent, {field: F(field) + delta * sign})` pair. -/
def DenormalizedTracker.updateValue (t : DenormalizedTracker)
    (foreign_object : Option ParentId) (delta sign : Int) :
    Option Adjustment :=
  if delta = 0 then none
  else
    match foreign_object with
    | none => none
    | some p => some (p, (t.field, .combined (delta * sign)))

/-- `DenormalizedTracker._get_delta` (tracker.py lines 65-75): `1` for Count,
the source attribute's value for Sum (reloaded from the database first when it
is an unresolved `CombinedExpression`), and `NotImplementedError` otherwise. -/
def DenormalizedTracker.getDelta (t : DenormalizedTracker) (inst : ChildState) :
    Except TrackError Int :=
  match t.aggregate with
  | .count => .ok 1
  | .sum =>
    match inst.points with
    | .concrete v => .ok v
    | .unresolved db => .ok ((AttrVal.unresolved db).refresh_from_db.resolve)
  | .other => .error .notImplemented

/-- `DenormalizedTracker.track_changes` (tracker.py lines 23-57).

`inst` is the `instance` argument (renamed: `instance` is a Lean keyword);
`old_instance` models the pre-mutation snapshot read from the
`_denormalized_previous_version` attribute on line 37.  The returned list
models the Python iterable: its elements are `Optional` adjustments because
the create/delete early returns wrap the result of `_update_value` — which may
be `None` — in a one-element tuple without filtering, while the fall-through
path returns `filter(None, changed)`. -/
def trackChanges (t : DenormalizedTracker) (inst old_instance : ChildState)
    (created deleted : Bool) :
    Except TrackError (List (Option Adjustment)) :=
  let foreign_object := resolveForeign inst
  let is_suitable := t.callback inst
  match t.getDelta inst with
  | .error e => .error e
  | .ok delta =>
    if created && is_suitable then
      .ok [t.updateValue foreign_object delta 1]
    else if deleted && is_suitable then
      .ok [t.updateValue foreign_object delta (-1)]
    else
      match t.getDelta old_instance with
      | .error e => .error e
      | .ok old_delta =>
        let old_suitable := t.callback old_instance
        let old_foreign_object := resolveForeign old_instance
        let sign : Int := b2i is_suitable - b2i old_suitable
        let changed : List (Option Adjustment) :=
          if foreign_object = old_foreign_object ∧ sign ≠ 0 then
            [t.updateValue foreign_object delta sign]
          else if foreign_object ≠ old_foreign_object then
            [t.updateValue old_foreign_object old_delta (-1),
             t.updateValue foreign_object delta 1]
          else
            [t.updateValue foreign_object (delta - old_delta) 1]
        .ok (changed.filter (fun x => x.isSome))

/-- The delta of a state as a pure value (what `_get_delta` returns whenever
it does not raise): `1` for Count, the resolved attribute value for Sum. -/
def deltaVal (t : DenormalizedTracker) (s : ChildState) : Int :=
  match t.aggregate with
  | .count => 1
  | .sum => s.points.resolve
  | .other => 0

/-!
## System model

Modelled from the spec: the surrounding wiring — the Snapshot Holder, the
Lifecycle Hooks that invoke the tracker and apply its increments, and the
Recompute Operation — lives in `denormalized/models.py`, which is not part of
the sources provided; only `tracker.py` is.  The definitions below follow the
spec's description of those collaborators (spec sections 2, 3, 6): hooks call
`track_changes` at each lifecycle point with the pre-mutation snapshot and
apply every returned increment atomically (`field = field + delta` evaluated
at write time); the snapshot of a freshly initialized instance mirrors its
current field values, so a create event is handled with the state itself as
snapshot; Recompute overwrites one parent's field with a full scan over its
currently eligible children.
-/

/-- Applying one optional adjustment to the parents' stored field values:
`None` entries do nothing; a real adjustment evaluates its field expression
against the currently stored value of the targeted parent (the storage
engine's atomic update). -/
def applyAdj (fields : ParentId → Int) : Option Adjustment → ParentId → Int
  | none => fields
  | some (p, (_, e)) => fun q => if q = p then FieldExpr.eval e (fields q) else fields q

/-- Applying a whole returned sequence of adjustments, in order. -/
def applyAdjs (l : List (Option Adjustment)) (fields : ParentId → Int) :
    ParentId → Int :=
  l.foldl applyAdj fields

/-- The signed delta an optional adjustment contributes to parent `p`
(zero for `None`, for adjustments aimed at other parents, and for absolute
`literal` updates, which carry no delta). -/
def adjDelta (p : ParentId) : Option Adjustment → Int
  | some (q, (_, .combined d)) => if q = p then d else 0
  | _ => 0

/-- The net signed delta a returned sequence contributes to parent `p`. -/
def netDelta (p : ParentId) (l : List (Option Adjustment)) : Int :=
  (l.map (adjDelta p)).sum

/-- An adjustment is relative (a `CombinedExpression`), not an absolute
value replacement. -/
def isRelative : Option Adjustment → Bool
  | some (_, (_, .literal _)) => false
  | _ => true

/-- The contribution of one child state to the aggregate of parent `p`:
its delta if it resolves to `p` and is eligible per the callback, else 0. -/
def contrib (t : DenormalizedTracker) (p : ParentId) (s : ChildState) : Int :=
  if resolveForeign s = some p ∧ t.callback s = true then deltaVal t s else 0

/-- The aggregate (COUNT of eligible children, or SUM of the source attribute
over eligible children) of parent `p` over a table of child rows. -/
def aggregateOf (t : DenormalizedTracker) (children : List (ChildId × ChildState))
    (p : ParentId) : Int :=
  (children.map (fun c => contrib t p c.2)).sum

/-- Looking a child row up by id. -/
def findChild (id : ChildId) : List (ChildId × ChildState) → Option ChildState
  | [] => none
  | c :: l => if c.1 = id then some c.2 else findChild id l

/-- Replacing the row with id `id` by the new state `s`. -/
def setChild (id : ChildId) (s : ChildState) (l : List (ChildId × ChildState)) :
    List (ChildId × ChildState) :=
  l.map (fun c => if c.1 = id then (id, s) else c)

/-- Removing the row with id `id`. -/
def removeChild (id : ChildId) (l : List (ChildId × ChildState)) :
    List (ChildId × ChildState) :=
  l.filter (fun c => decide (c.1 ≠ id))

/-- A child lifecycle event, or a Recompute of one parent. -/
inductive Event where
  | create (id : ChildId) (s : ChildState)
  | update (id : ChildId) (s : ChildState)
  | delete (id : ChildId)
  | recompute (p : ParentId)
deriving DecidableEq, Repr

/-- The whole system: the child table and each parent's stored value of the
tracked field. -/
structure SysState where
  children : List (ChildId × ChildState)
  fields : ParentId → Int

/-- No children, every parent's tracked field at 0. -/
def initState : SysState := ⟨[], fun _ => 0⟩

/-- One lifecycle step.  Modelled from the spec: the hooks invoke
`track_changes` with `created` / `deleted` flags at the matching lifecycle
point, supply the pre-mutation snapshot (the state itself for a freshly
initialized instance being created, the stored state for updates, the state
at deletion time for deletes), apply every returned increment, and commit the
child mutation in the same transaction; Recompute overwrites one parent's
field with the full aggregate scan.  Events addressing an id that does not
exist (or creating one that does) are rejected by the database and do not
reach the tracker. -/
def SysState.step (t : DenormalizedTracker) (st : SysState) :
    Event → Except TrackError SysState
  | .create id s =>
    match findChild id st.children with
    | some _ => .ok st
    | none =>
      match trackChanges t s s true false with
      | .error e => .error e
      | .ok adjs => .ok ⟨(id, s) :: st.children, applyAdjs adjs st.fields⟩
  | .update id s =>
    match findChild id st.children with
    | none => .ok st
    | some old =>
      match trackChanges t s old false false with
      | .error e => .error e
      | .ok adjs => .ok ⟨setChild id s st.children, applyAdjs adjs st.fields⟩
  | .delete id =>
    match findChild id st.children with
    | none => .ok st
    | some cur =>
      match trackChanges t cur cur false true with
      | .error e => .error e
      | .ok adjs => .ok ⟨removeChild id st.children, applyAdjs adjs st.fields⟩
  | .recompute p =>
    .ok ⟨st.children,
         fun q => if q = p then aggregateOf t st.children p else st.fields q⟩

/-- Running a sequence of events from a state. -/
def runEvents (t : DenormalizedTracker) :
    List Event → SysState → Except TrackError SysState
  | [], st => .ok st
  | e :: es, st =>
    match st.step t e with
    | .error err => .error err
    | .ok st2 => runEvents t es st2

/-- The pair (stored field value, recomputed aggregate) of parent `p` after a
run, when the run succeeded. -/
def invariantGap (t : DenormalizedTracker) (r : Except TrackError SysState)
    (p : ParentId) : Option (Int × Int) :=
  match r with
  | .ok st => some (st.fields p, aggregateOf t st.children p)
  | .error _ => none

/-!
## Concrete trackers and states used in witnesses and counterexamples

These mirror the test project: `members_count = Count` with an
`active`-flag callback, `points_sum = Sum("points")`.
-/

/-- A Count tracker whose callback only accepts active members. -/
def tCount : DenormalizedTracker := ⟨"members_count", .count, fun s => s.active⟩

/-- A Sum tracker whose callback only accepts active members. -/
def tSum : DenormalizedTracker := ⟨"points_sum", .sum, fun s => s.active⟩

/-- A Count tracker with the source's default always-true callback. -/
def tCountAll : DenormalizedTracker := ⟨"members_count", .count, fun _ => true⟩

/-- A Sum tracker with the source's default always-true callback. -/
def tSumAll : DenormalizedTracker := ⟨"points_sum", .sum, fun _ => true⟩

/-- A tracker configured with an unsupported aggregate kind. -/
def tBroken : DenormalizedTracker := ⟨"broken", .other, fun _ => true⟩

/-- An active member of parent 0. -/
def mActive : ChildState := ⟨.present 0, .concrete 0, true⟩

/-- An inactive member of parent 0. -/
def mIdle : ChildState := ⟨.present 0, .concrete 0, false⟩

/-- An inactive member of parent 1. -/
def mIdleMoved : ChildState := ⟨.present 1, .concrete 0, false⟩

/-- An active member of parent 0 whose previous snapshot this mirrors. -/
def mWasActive : ChildState := ⟨.present 0, .concrete 0, true⟩

/-!
## Helper lemmas about the tracker
-/

theorem getDelta_ok (t : DenormalizedTracker) (s : ChildState)
    (h : t.aggregate ≠ .other) : t.getDelta s = .ok (deltaVal t s) := by
  unfold DenormalizedTracker.getDelta deltaVal
  cases hA : t.aggregate with
  | count => rfl
  | sum =>
    cases s.points <;>
      simp [AttrVal.resolve, AttrVal.refresh_from_db]
  | other => exact absurd hA h

theorem getDelta_other (t : DenormalizedTracker) (s : ChildState)
    (h : t.aggregate = .other) : t.getDelta s = .error .notImplemented := by
  unfold DenormalizedTracker.getDelta
  rw [h]

theorem getDelta_ok_inv (t : DenormalizedTracker) (s : ChildState) (d : Int)
    (h : t.getDelta s = .ok d) : t.aggregate ≠ .other := by
  intro hA
  rw [getDelta_other t s hA] at h
  exact Except.noConfusion h

theorem updateValue_eq_some (t : DenormalizedTracker) (fo : Option ParentId)
    (delta sign : Int) (p : ParentId) (u : IncrementalUpdates)
    (h : t.updateValue fo delta sign = some (p, u)) :
    fo = some p ∧ delta ≠ 0 ∧ u = (t.field, .combined (delta * sign)) := by
  unfold DenormalizedTracker.updateValue at h
  by_cases hd : delta = 0
  · simp [hd] at h
  · simp only [hd, if_false] at h
    cases fo with
    | none => exact Option.noConfusion h
    | some q =>
      simp only [Option.some.injEq, Prod.mk.injEq] at h
      exact ⟨by rw [h.1], hd, h.2.symm⟩

theorem updateValue_isRelative (t : DenormalizedTracker) (fo : Option ParentId)
    (delta sign : Int) : isRelative (t.updateValue fo delta sign) = true := by
  unfold DenormalizedTracker.updateValue isRelative
  by_cases hd : delta = 0
  · simp [hd]
  · cases fo <;> simp [hd]

theorem updateValue_zero (t : DenormalizedTracker) (fo : Option ParentId)
    (sign : Int) : t.updateValue fo 0 sign = none := by
  unfold DenormalizedTracker.updateValue
  simp

theorem updateValue_noTarget (t : DenormalizedTracker) (delta sign : Int) :
    t.updateValue none delta sign = none := by
  unfold DenormalizedTracker.updateValue
  by_cases hd : delta = 0 <;> simp [hd]

theorem adjDelta_updateValue (t : DenormalizedTracker) (p : ParentId)
    (fo : Option ParentId) (delta sign : Int) :
    adjDelta p (t.updateValue fo delta sign)
      = if fo = some p then delta * sign else 0 := by
  unfold DenormalizedTracker.updateValue adjDelta
  by_cases hd : delta = 0
  · cases fo with
    | none => simp [hd]
    | some q =>
      by_cases hq : q = p <;> simp [hd, hq]
  · cases fo with
    | none => simp [hd]
    | some q =>
      by_cases hq : q = p <;> simp [hd, hq]

theorem applyAdj_eval (f : ParentId → Int) (x : Option Adjustment) (q : ParentId)
    (h : isRelative x = true) : applyAdj f x q = f q + adjDelta q x := by
  match x with
  | none => simp [applyAdj, adjDelta]
  | some (p, (n, .combined d)) =>
    by_cases hq : q = p
    · subst hq
      simp [applyAdj, adjDelta, FieldExpr.eval]
    · simp only [applyAdj, adjDelta, hq, if_false]
      rw [if_neg (fun h2 => hq h2.symm)]
      ring
  | some (p, (n, .literal v)) =>
    simp [isRelative] at h

theorem applyAdjs_eval (l : List (Option Adjustment))
    (h : ∀ x ∈ l, isRelative x = true) (f : ParentId → Int) (q : ParentId) :
    applyAdjs l f q = f q + netDelta q l := by
  induction l generalizing f with
  | nil => simp [applyAdjs, netDelta]
  | cons x xs ih =>
    have hx : isRelative x = true := h x (List.mem_cons_self x xs)
    have hxs : ∀ y ∈ xs, isRelative y = true :=
      fun y hy => h y (List.mem_cons_of_mem x hy)
    calc applyAdjs (x :: xs) f q = applyAdjs xs (applyAdj f x) q := rfl
      _ = applyAdj f x q + netDelta q xs := ih hxs (applyAdj f x)
      _ = (f q + adjDelta q x) + netDelta q xs := by rw [applyAdj_eval f x q hx]
      _ = f q + netDelta q (x :: xs) := by
          simp [netDelta]
          ring

theorem netDelta_filterSome (p : ParentId) (l : List (Option Adjustment)) :
    netDelta p (l.filter (fun x => x.isSome)) = netDelta p l := by
  induction l with
  | nil => rfl
  | cons x xs ih =>
    cases x with
    | none => simpa [netDelta, List.filter, adjDelta] using ih
    | some a => simpa [netDelta, List.filter] using congrArg (adjDelta p (some a) + ·) ih

theorem isRelative_filterSome (l : List (Option Adjustment))
    (h : ∀ x ∈ l, isRelative x = true) :
    ∀ x ∈ l.filter (fun x => x.isSome), isRelative x = true :=
  fun x hx => h x (List.mem_of_mem_filter hx)

/-- `track_changes` raises `NotImplementedError` on every invocation when the
aggregate kind is unsupported: `_get_delta` runs before any branching. -/
theorem trackChanges_other (t : DenormalizedTracker) (inst old : ChildState)
    (c d : Bool) (h : t.aggregate = .other) :
    trackChanges t inst old c d = .error .notImplemented := by
  unfold trackChanges
  rw [getDelta_other t inst h]

theorem trackChanges_ok_agg (t : DenormalizedTracker) (inst old : ChildState)
    (c d : Bool) (l : List (Option Adjustment))
    (h : trackChanges t inst old c d = .ok l) : t.aggregate ≠ .other := by
  intro hA
  rw [trackChanges_other t inst old c d hA] at h
  exact Except.noConfusion h

/-- Master equation: the full branch structure of `track_changes` for a
supported aggregate, with both `_get_delta` calls resolved to pure values. -/
theorem trackChanges_eq (t : DenormalizedTracker) (inst old : ChildState)
    (c d : Bool) (hagg : t.aggregate ≠ .other) :
    trackChanges t inst old c d = .ok (
      if c && t.callback inst then
        [t.updateValue (resolveForeign inst) (deltaVal t inst) 1]
      else if d && t.callback inst then
        [t.updateValue (resolveForeign inst) (deltaVal t inst) (-1)]
      else
        (if resolveForeign inst = resolveForeign old ∧
            b2i (t.callback inst) - b2i (t.callback old) ≠ 0 then
          [t.updateValue (resolveForeign inst) (deltaVal t inst)
            (b2i (t.callback inst) - b2i (t.callback old))]
        else if resolveForeign inst ≠ resolveForeign old then
          [t.updateValue (resolveForeign old) (deltaVal t old) (-1),
           t.updateValue (resolveForeign inst) (deltaVal t inst) 1]
        else
          [t.updateValue (resolveForeign inst)
            (deltaVal t inst - deltaVal t old) 1]).filter (fun x => x.isSome)) := by
  unfold trackChanges
  rw [getDelta_ok t inst hagg, getDelta_ok t old hagg]
  dsimp only
  split_ifs <;> rfl

/-- Every element of a returned sequence is the result of one `_update_value`
call, with a nonzero sign, aimed at the resolved parent of the current state
or of the snapshot. -/
def FromUpdate (t : DenormalizedTracker) (inst old : ChildState)
    (x : Option Adjustment) : Prop :=
  ∃ fo delta sign, sign ≠ 0 ∧
    (fo = resolveForeign inst ∨ fo = resolveForeign old) ∧
    x = t.updateValue fo delta sign

theorem trackChanges_elems (t : DenormalizedTracker) (inst old : ChildState)
    (c d : Bool) (l : List (Option Adjustment))
    (h : trackChanges t inst old c d = .ok l) :
    l.length ≤ 2 ∧ (∀ x ∈ l, FromUpdate t inst old x) ∧
      (c = false → d = false → (none : Option Adjustment) ∉ l) := by
  have hagg := trackChanges_ok_agg t inst old c d l h
  rw [trackChanges_eq t inst old c d hagg] at h
  injection h with h
  subst h
  by_cases h1 : (c && t.callback inst) = true
  · rw [if_pos h1]
    refine ⟨by simp, ?_, ?_⟩
    · intro x hx
      rw [List.mem_singleton] at hx
      exact ⟨resolveForeign inst, deltaVal t inst, 1, one_ne_zero, Or.inl rfl, hx⟩
    · intro hc
      subst hc
      simp at h1
  · rw [if_neg h1]
    by_cases h2 : (d && t.callback inst) = true
    · rw [if_pos h2]
      refine ⟨by simp, ?_, ?_⟩
      · intro x hx
        rw [List.mem_singleton] at hx
        exact ⟨resolveForeign inst, deltaVal t inst, -1, by norm_num, Or.inl rfl, hx⟩
      · intro _ hd
        subst hd
        simp at h2
    · rw [if_neg h2]
      refine ⟨?_, ?_, ?_⟩
      · refine le_trans (List.length_filter_le _ _) ?_
        by_cases h3 : resolveForeign inst = resolveForeign old ∧
            b2i (t.callback inst) - b2i (t.callback old) ≠ 0
        · rw [if_pos h3]; simp
        · rw [if_neg h3]
          by_cases h4 : resolveForeign inst ≠ resolveForeign old
          · rw [if_pos h4]; simp
          · rw [if_neg h4]; simp
      · intro x hx
        have hx2 := List.mem_of_mem_filter hx
        by_cases h3 : resolveForeign inst = resolveForeign old ∧
            b2i (t.callback inst) - b2i (t.callback old) ≠ 0
        · rw [if_pos h3, List.mem_singleton] at hx2
          exact ⟨resolveForeign inst, deltaVal t inst, _, h3.2, Or.inl rfl, hx2⟩
        · rw [if_neg h3] at hx2
          by_cases h4 : resolveForeign inst ≠ resolveForeign old
          · rw [if_pos h4, List.mem_cons, List.mem_singleton] at hx2
            rcases hx2 with hx2 | hx2
            · exact ⟨resolveForeign old, deltaVal t old, -1, by norm_num,
                Or.inr rfl, hx2⟩
            · exact ⟨resolveForeign inst, deltaVal t inst, 1, one_ne_zero,
                Or.inl rfl, hx2⟩
          · rw [if_neg h4, List.mem_singleton] at hx2
            exact ⟨resolveForeign inst, deltaVal t inst - deltaVal t old, 1,
              one_ne_zero, Or.inl rfl, hx2⟩
      · intro _ _ hmem
        have := List.of_mem_filter hmem
        simp at this

/-!
## Aggregate bookkeeping over the child table
-/

theorem contrib_cbTrue (t : DenormalizedTracker) (hcb : ∀ s, t.callback s = true)
    (p : ParentId) (s : ChildState) :
    contrib t p s = if resolveForeign s = some p then deltaVal t s else 0 := by
  unfold contrib
  by_cases hp : resolveForeign s = some p <;> simp [hp, hcb s]

theorem aggregateOf_cons (t : DenormalizedTracker) (c : ChildId × ChildState)
    (l : List (ChildId × ChildState)) (p : ParentId) :
    aggregateOf t (c :: l) p = contrib t p c.2 + aggregateOf t l p := by
  unfold aggregateOf
  rw [List.map_cons, List.sum_cons]

theorem findChild_eq_none (id : ChildId) (l : List (ChildId × ChildState))
    (h : findChild id l = none) : ∀ c ∈ l, c.1 ≠ id := by
  induction l with
  | nil => intro c hc; exact absurd hc (List.not_mem_nil c)
  | cons x xs ih =>
    unfold findChild at h
    intro c hc
    by_cases hx : x.1 = id
    · rw [if_pos hx] at h; exact Option.noConfusion h
    · rw [if_neg hx] at h
      rcases List.mem_cons.mp hc with rfl | hc2
      · exact hx
      · exact ih h c hc2

theorem setChild_ids (id : ChildId) (s : ChildState)
    (l : List (ChildId × ChildState)) :
    (setChild id s l).map Prod.fst = l.map Prod.fst := by
  induction l with
  | nil => rfl
  | cons x xs ih =>
    unfold setChild at ih ⊢
    rw [List.map_cons, List.map_cons, List.map_cons, ih]
    by_cases hx : x.1 = id
    · rw [if_pos hx]; simp [hx]
    · rw [if_neg hx]

theorem setChild_of_not_mem (id : ChildId) (s : ChildState)
    (l : List (ChildId × ChildState)) (h : ∀ c ∈ l, c.1 ≠ id) :
    setChild id s l = l := by
  induction l with
  | nil => rfl
  | cons x xs ih =>
    unfold setChild at ih ⊢
    rw [List.map_cons, if_neg (h x (List.mem_cons_self x xs)), ih]
    intro c hc
    exact h c (List.mem_cons_of_mem x hc)

theorem removeChild_of_not_mem (id : ChildId)
    (l : List (ChildId × ChildState)) (h : ∀ c ∈ l, c.1 ≠ id) :
    removeChild id l = l := by
  induction l with
  | nil => rfl
  | cons x xs ih =>
    unfold removeChild at ih ⊢
    rw [List.filter_cons]
    rw [if_pos (by simpa using h x (List.mem_cons_self x xs)), ih]
    intro c hc
    exact h c (List.mem_cons_of_mem x hc)

theorem aggregateOf_setChild (t : DenormalizedTracker) (id : ChildId)
    (s old : ChildState) (l : List (ChildId × ChildState)) (p : ParentId)
    (hnd : (l.map Prod.fst).Nodup) (hf : findChild id l = some old) :
    aggregateOf t (setChild id s l) p
      = aggregateOf t l p + (contrib t p s - contrib t p old) := by
  induction l with
  | nil => exact Option.noConfusion hf
  | cons x xs ih =>
    rw [List.map_cons, List.nodup_cons] at hnd
    unfold findChild at hf
    by_cases hx : x.1 = id
    · rw [if_pos hx] at hf
      injection hf with hf
      have htail : ∀ c ∈ xs, c.1 ≠ id := by
        intro c hc hcid
        have hmem : c.1 ∈ List.map Prod.fst xs := List.mem_map_of_mem Prod.fst hc
        rw [hcid, ← hx] at hmem
        exact hnd.1 hmem
      unfold setChild
      rw [List.map_cons, if_pos hx]
      have : List.map (fun c => if c.1 = id then (id, s) else c) xs = xs := by
        have := setChild_of_not_mem id s xs htail
        unfold setChild at this
        exact this
      rw [this, aggregateOf_cons, aggregateOf_cons, hf]
      ring
    · rw [if_neg hx] at hf
      unfold setChild
      rw [List.map_cons, if_neg hx]
      have ihx := ih hnd.2 hf
      unfold setChild at ihx
      rw [aggregateOf_cons, aggregateOf_cons, ihx]
      ring

theorem aggregateOf_removeChild (t : DenormalizedTracker) (id : ChildId)
    (old : ChildState) (l : List (ChildId × ChildState)) (p : ParentId)
    (hnd : (l.map Prod.fst).Nodup) (hf : findChild id l = some old) :
    aggregateOf t (removeChild id l) p = aggregateOf t l p - contrib t p old := by
  induction l with
  | nil => exact Option.noConfusion hf
  | cons x xs ih =>
    rw [List.map_cons, List.nodup_cons] at hnd
    unfold findChild at hf
    by_cases hx : x.1 = id
    · rw [if_pos hx] at hf
      injection hf with hf
      have htail : ∀ c ∈ xs, c.1 ≠ id := by
        intro c hc hcid
        have hmem : c.1 ∈ List.map Prod.fst xs := List.mem_map_of_mem Prod.fst hc
        rw [hcid, ← hx] at hmem
        exact hnd.1 hmem
      unfold removeChild
      rw [List.filter_cons, if_neg (by simpa using hx)]
      have : List.filter (fun c => decide (c.1 ≠ id)) xs = xs := by
        have := removeChild_of_not_mem id xs htail
        unfold removeChild at this
        exact this
      rw [this, aggregateOf_cons, hf]
      ring
    · rw [if_neg hx] at hf
      unfold removeChild
      rw [List.filter_cons, if_pos (by simpa using hx)]
      have ihx := ih hnd.2 hf
      unfold removeChild at ihx
      rw [aggregateOf_cons, aggregateOf_cons, ihx]
      ring

theorem removeChild_nodup (id : ChildId) (l : List (ChildId × ChildState))
    (hnd : (l.map Prod.fst).Nodup) : ((removeChild id l).map Prod.fst).Nodup :=
  List.Nodup.sublist (List.Sublist.map Prod.fst (List.filter_sublist l)) hnd

theorem netDelta_one (t : DenormalizedTracker) (p : ParentId)
    (fo : Option ParentId) (delta sign : Int) :
    netDelta p [t.updateValue fo delta sign]
      = if fo = some p then delta * sign else 0 := by
  simp [netDelta, adjDelta_updateValue]

theorem netDelta_two (t : DenormalizedTracker) (p : ParentId)
    (fo1 : Option ParentId) (d1 s1 : Int) (fo2 : Option ParentId) (d2 s2 : Int) :
    netDelta p [t.updateValue fo1 d1 s1, t.updateValue fo2 d2 s2]
      = (if fo1 = some p then d1 * s1 else 0)
        + (if fo2 = some p then d2 * s2 else 0) := by
  simp [netDelta, adjDelta_updateValue]

/-- The create early return (tracker.py lines 33-34), taken whenever
`created` is set and the current state is eligible. -/
theorem trackChanges_create_suitable (t : DenormalizedTracker)
    (inst old : ChildState) (d : Bool) (hagg : t.aggregate ≠ .other)
    (hsuit : t.callback inst = true) :
    trackChanges t inst old true d
      = .ok [t.updateValue (resolveForeign inst) (deltaVal t inst) 1] := by
  rw [trackChanges_eq t inst old true d hagg, hsuit]
  rfl

/-- The delete early return (tracker.py lines 35-36). -/
theorem trackChanges_delete_suitable (t : DenormalizedTracker)
    (inst old : ChildState) (hagg : t.aggregate ≠ .other)
    (hsuit : t.callback inst = true) :
    trackChanges t inst old false true
      = .ok [t.updateValue (resolveForeign inst) (deltaVal t inst) (-1)] := by
  rw [trackChanges_eq t inst old false true hagg, hsuit]
  rfl

/-- The same-parent, same-eligibility fall-through branch
(tracker.py lines 52-55). -/
theorem trackChanges_update_eq (t : DenormalizedTracker) (inst old : ChildState)
    (hagg : t.aggregate ≠ .other)
    (hfo : resolveForeign inst = resolveForeign old)
    (hsg : b2i (t.callback inst) - b2i (t.callback old) = 0) :
    trackChanges t inst old false false
      = .ok ([t.updateValue (resolveForeign inst)
          (deltaVal t inst - deltaVal t old) 1].filter (fun x => x.isSome)) := by
  rw [trackChanges_eq t inst old false false hagg]
  simp only [Bool.false_and, Bool.false_eq_true, if_false]
  rw [if_neg (fun hand => hand.2 hsg), if_neg (fun hne => hne hfo)]

/-- The same-parent, eligibility-flipped fall-through branch
(tracker.py lines 46-47). -/
theorem trackChanges_update_sign (t : DenormalizedTracker) (inst old : ChildState)
    (hagg : t.aggregate ≠ .other)
    (hfo : resolveForeign inst = resolveForeign old)
    (hsg : b2i (t.callback inst) - b2i (t.callback old) ≠ 0) :
    trackChanges t inst old false false
      = .ok ([t.updateValue (resolveForeign inst) (deltaVal t inst)
          (b2i (t.callback inst) - b2i (t.callback old))].filter
            (fun x => x.isSome)) := by
  rw [trackChanges_eq t inst old false false hagg]
  simp only [Bool.false_and, Bool.false_eq_true, if_false]
  rw [if_pos ⟨hfo, hsg⟩]

/-- The parent-changed fall-through branch (tracker.py lines 48-51):
both emissions happen with no eligibility check. -/
theorem trackChanges_update_diff (t : DenormalizedTracker) (inst old : ChildState)
    (hagg : t.aggregate ≠ .other)
    (hfo : resolveForeign inst ≠ resolveForeign old) :
    trackChanges t inst old false false
      = .ok ([t.updateValue (resolveForeign old) (deltaVal t old) (-1),
          t.updateValue (resolveForeign inst) (deltaVal t inst) 1].filter
            (fun x => x.isSome)) := by
  rw [trackChanges_eq t inst old false false hagg]
  simp only [Bool.false_and, Bool.false_eq_true, if_false]
  rw [if_neg (fun hand => hfo hand.1), if_pos hfo]

/-- The invariant the spec states in section 8, together with the
well-formedness of the child table (distinct ids). -/
def GoodState (t : DenormalizedTracker) (st : SysState) : Prop :=
  (st.children.map Prod.fst).Nodup ∧
    ∀ p, st.fields p = aggregateOf t st.children p

theorem goodState_init (t : DenormalizedTracker) : GoodState t initState :=
  ⟨List.nodup_nil, fun _ => rfl⟩

theorem step_good (t : DenormalizedTracker) (hcb : ∀ s, t.callback s = true)
    (st st2 : SysState) (e : Event) (hg : GoodState t st)
    (h : st.step t e = .ok st2) : GoodState t st2 := by
  cases e with
  | create id s =>
    unfold SysState.step at h
    dsimp only at h
    cases hfc : findChild id st.children with
    | some old =>
      rw [hfc] at h
      dsimp only at h
      injection h with h
      exact h ▸ hg
    | none =>
      rw [hfc] at h
      dsimp only at h
      cases hTC : trackChanges t s s true false with
      | error err => rw [hTC] at h; exact Except.noConfusion h
      | ok adjs =>
        rw [hTC] at h
        dsimp only at h
        injection h with h
        subst h
        have hagg := trackChanges_ok_agg t s s true false adjs hTC
        have h2 := trackChanges_create_suitable t s s false hagg (hcb s)
        rw [hTC] at h2
        injection h2 with h2
        subst h2
        constructor
        · rw [List.map_cons, List.nodup_cons]
          refine ⟨?_, hg.1⟩
          intro hmem
          rcases List.mem_map.mp hmem with ⟨c, hc, hcid⟩
          exact findChild_eq_none id st.children hfc c hc hcid
        · intro p
          have hrel : ∀ x ∈ [t.updateValue (resolveForeign s) (deltaVal t s) 1],
              isRelative x = true := by
            intro x hx
            rw [List.mem_singleton] at hx
            rw [hx]
            exact updateValue_isRelative t _ _ _
          show applyAdjs _ st.fields p = _
          rw [applyAdjs_eval _ hrel st.fields p, netDelta_one, aggregateOf_cons,
            hg.2 p, contrib_cbTrue t hcb p s]
          by_cases hp : resolveForeign s = some p
          · rw [if_pos hp, if_pos hp]; ring
          · rw [if_neg hp, if_neg hp]; ring
  | update id s =>
    unfold SysState.step at h
    dsimp only at h
    cases hfc : findChild id st.children with
    | none =>
      rw [hfc] at h
      dsimp only at h
      injection h with h
      exact h ▸ hg
    | some old =>
      rw [hfc] at h
      dsimp only at h
      cases hTC : trackChanges t s old false false with
      | error err => rw [hTC] at h; exact Except.noConfusion h
      | ok adjs =>
        rw [hTC] at h
        dsimp only at h
        injection h with h
        subst h
        have hagg := trackChanges_ok_agg t s old false false adjs hTC
        have hsg : b2i (t.callback s) - b2i (t.callback old) = 0 := by
          rw [hcb s, hcb old]; ring
        refine ⟨by rw [setChild_ids]; exact hg.1, ?_⟩
        intro p
        by_cases hfo : resolveForeign s = resolveForeign old
        · have h2 := trackChanges_update_eq t s old hagg hfo hsg
          rw [hTC] at h2
          injection h2 with h2
          subst h2
          have hrel := isRelative_filterSome
            [t.updateValue (resolveForeign s) (deltaVal t s - deltaVal t old) 1]
            (by
              intro x hx
              rw [List.mem_singleton] at hx
              rw [hx]
              exact updateValue_isRelative t _ _ _)
          show applyAdjs _ st.fields p = _
          rw [applyAdjs_eval _ hrel st.fields p, netDelta_filterSome,
            netDelta_one,
            aggregateOf_setChild t id s old st.children p hg.1 hfc, hg.2 p,
            contrib_cbTrue t hcb p s, contrib_cbTrue t hcb p old]
          by_cases hp : resolveForeign s = some p
          · rw [if_pos hp, if_pos hp, if_pos (hfo ▸ hp)]; ring
          · rw [if_neg hp, if_neg hp, if_neg (hfo ▸ hp)]; ring
        · have h2 := trackChanges_update_diff t s old hagg hfo
          rw [hTC] at h2
          injection h2 with h2
          subst h2
          have hrel := isRelative_filterSome
            [t.updateValue (resolveForeign old) (deltaVal t old) (-1),
             t.updateValue (resolveForeign s) (deltaVal t s) 1]
            (by
              intro x hx
              rw [List.mem_cons, List.mem_singleton] at hx
              rcases hx with hx | hx <;>
                · rw [hx]; exact updateValue_isRelative t _ _ _)
          show applyAdjs _ st.fields p = _
          rw [applyAdjs_eval _ hrel st.fields p, netDelta_filterSome,
            netDelta_two,
            aggregateOf_setChild t id s old st.children p hg.1 hfc, hg.2 p,
            contrib_cbTrue t hcb p s, contrib_cbTrue t hcb p old]
          by_cases hp : resolveForeign s = some p <;>
            by_cases hq : resolveForeign old = some p
          · rw [if_pos hp, if_pos hq, if_pos hp, if_pos hq]; ring
          · rw [if_pos hp, if_neg hq, if_pos hp, if_neg hq]; ring
          · rw [if_neg hp, if_pos hq, if_neg hp, if_pos hq]; ring
          · rw [if_neg hp, if_neg hq, if_neg hp, if_neg hq]; ring
  | delete id =>
    unfold SysState.step at h
    dsimp only at h
    cases hfc : findChild id st.children with
    | none =>
      rw [hfc] at h
      dsimp only at h
      injection h with h
      exact h ▸ hg
    | some cur =>
      rw [hfc] at h
      dsimp only at h
      cases hTC : trackChanges t cur cur false true with
      | error err => rw [hTC] at h; exact Except.noConfusion h
      | ok adjs =>
        rw [hTC] at h
        dsimp only at h
        injection h with h
        subst h
        have hagg := trackChanges_ok_agg t cur cur false true adjs hTC
        have h2 := trackChanges_delete_suitable t cur cur hagg (hcb cur)
        rw [hTC] at h2
        injection h2 with h2
        subst h2
        refine ⟨removeChild_nodup id st.children hg.1, ?_⟩
        intro p
        have hrel : ∀ x ∈ [t.updateValue (resolveForeign cur) (deltaVal t cur) (-1)],
            isRelative x = true := by
          intro x hx
          rw [List.mem_singleton] at hx
          rw [hx]
          exact updateValue_isRelative t _ _ _
        show applyAdjs _ st.fields p = _
        rw [applyAdjs_eval _ hrel st.fields p, netDelta_one,
          aggregateOf_removeChild t id cur st.children p hg.1 hfc, hg.2 p,
          contrib_cbTrue t hcb p cur]
        by_cases hp : resolveForeign cur = some p
        · rw [if_pos hp, if_pos hp]; ring
        · rw [if_neg hp, if_neg hp]; ring
  | recompute p0 =>
    unfold SysState.step at h
    dsimp only at h
    injection h with h
    subst h
    refine ⟨hg.1, ?_⟩
    intro p
    show (if p = p0 then _ else _) = _
    by_cases hp : p = p0
    · rw [if_pos hp, hp]
    · rw [if_neg hp]
      exact hg.2 p

theorem run_good (t : DenormalizedTracker) (hcb : ∀ s, t.callback s = true)
    (es : List Event) (st st2 : SysState) (hg : GoodState t st)
    (h : runEvents t es st = .ok st2) : GoodState t st2 := by
  induction es generalizing st with
  | nil =>
    unfold runEvents at h
    injection h with h
    exact h ▸ hg
  | cons e es ih =>
    unfold runEvents at h
    cases hs : st.step t e with
    | error err => rw [hs] at h; exact Except.noConfusion h
    | ok st1 =>
      rw [hs] at h
      exact ih st1 (step_good t hcb st st1 e hg hs) h

/-!
## Additional fixtures for witnesses and counterexamples
-/

/-- An eligible member whose foreign key is null. -/
def mNullActive : ChildState := ⟨.null, .concrete 0, true⟩

/-- A member whose parent row vanished (`ObjectDoesNotExist` on resolution). -/
def mGone : ChildState := ⟨.missing, .concrete 0, true⟩

/-- An active, parentless member worth 5 points. -/
def mNullFive : ChildState := ⟨.null, .concrete 5, true⟩

/-- An inactive, parentless member worth 3 points. -/
def mNullThree : ChildState := ⟨.null, .concrete 3, false⟩

/-- A member whose points attribute holds a concrete value 5. -/
def mConcFive : ChildState := ⟨.present 0, .concrete 5, true⟩

/-- A member whose points attribute is an unresolved expression with
persisted value 7. -/
def mUnresSeven : ChildState := ⟨.present 0, .unresolved 7, true⟩

/-- The state reached by creating one always-eligible member. -/
def c1WitnessState : SysState :=
  match runEvents tCountAll [.create 0 mActive] initState with
  | .ok st => st
  | .error _ => initState

/-!
## The claims
-/

/-- C1 (amended): after any successful sequence of create/update/delete
events — each handled by `track_changes` with the pre-mutation snapshot, the
returned increments applied — and Recomputes, every parent's tracked field
equals the aggregate of its eligible children, PROVIDED the tracker's
eligibility callback accepts every state.  (As stated, over arbitrary
callbacks, the claim is false: see the counterexample, where re-parenting an
ineligible child moves a count that was never added.) -/
theorem trackChanges_invariant (t : DenormalizedTracker)
    (hcb : ∀ s, t.callback s = true) (es : List Event) (st2 : SysState)
    (h : runEvents t es initState = .ok st2) (p : ParentId) :
    st2.fields p = aggregateOf t st2.children p :=
  (run_good t hcb es initState st2 (goodState_init t) h).2 p

theorem trackChanges_invariant_witness :
    c1WitnessState.fields 0 = aggregateOf tCountAll c1WitnessState.children 0 :=
  trackChanges_invariant tCountAll (fun _ => rfl) [.create 0 mActive]
    c1WitnessState rfl 0

/-- C1 counterexample: for the Count tracker whose callback requires the
`active` flag, creating an inactive child under parent 0 (no adjustment) and
then re-parenting it, still inactive, to parent 1 leaves parent 0's stored
field at −1 while its aggregate of eligible children is 0. -/
theorem c1_counterexample :
    invariantGap tCount
        (runEvents tCount [.create 7 mIdle, .update 7 mIdleMoved] initState) 0
      = some (-1, 0) ∧ (-1 : Int) ≠ 0 :=
  ⟨rfl, by decide⟩

/-- C2 (amended): on an update whose resolved parent changed,
`track_changes` emits the decrement of `delta(previous)` against the old
parent and the increment of `delta(current)` against the new parent
UNCONDITIONALLY — neither emission is gated on its source state's
eligibility; an emission is dropped only by `_update_value`'s own checks
(zero delta or absent parent reference). -/
theorem trackChanges_parent_changed (t : DenormalizedTracker)
    (inst old : ChildState) (hagg : t.aggregate ≠ .other)
    (hfo : resolveForeign inst ≠ resolveForeign old) :
    trackChanges t inst old false false
      = .ok ([t.updateValue (resolveForeign old) (deltaVal t old) (-1),
          t.updateValue (resolveForeign inst) (deltaVal t inst) 1].filter
            (fun x => x.isSome)) :=
  trackChanges_update_diff t inst old hagg hfo

theorem trackChanges_parent_changed_witness :
    trackChanges tCount mIdleMoved mIdle false false
      = .ok ([tCount.updateValue (resolveForeign mIdle) (deltaVal tCount mIdle)
            (-1),
          tCount.updateValue (resolveForeign mIdleMoved)
            (deltaVal tCount mIdleMoved) 1].filter (fun x => x.isSome)) :=
  trackChanges_parent_changed tCount mIdleMoved mIdle (by decide)
    (by decide)

/-- C2 counterexample: both the previous and the current state are
ineligible (`active = false`), yet the parent-changed update emits both
adjustments — the claim says each of them is suppressed. -/
theorem c2_counterexample :
    trackChanges tCount mIdleMoved mIdle false false
        = .ok [some (0, ("members_count", .combined (-1))),
               some (1, ("members_count", .combined 1))]
      ∧ tCount.callback mIdleMoved = false ∧ tCount.callback mIdle = false :=
  ⟨rfl, rfl, rfl⟩

/-- C3 (amended): a create event whose new state is ineligible (and a delete
event whose state is ineligible) does NOT return through the create/delete
early path: `track_changes` falls through to the update logic evaluated
against the previous-state snapshot, so the outcome coincides with that of an
update event and can depend on the snapshot.  In particular it emits no
adjustments when the snapshot coincides with the current state (as happens in
the hooks' wiring, where the stashed snapshot of a freshly initialized
instance mirrors its current field values). -/
theorem trackChanges_unsuitable_fallthrough (t : DenormalizedTracker)
    (inst old : ChildState) (c d : Bool) (hagg : t.aggregate ≠ .other)
    (hsuit : t.callback inst = false) :
    trackChanges t inst old c d = trackChanges t inst old false false
      ∧ trackChanges t inst inst c d = .ok [] := by
  constructor
  · rw [trackChanges_eq t inst old c d hagg,
      trackChanges_eq t inst old false false hagg, hsuit]
    simp only [Bool.and_false, Bool.false_and]
  · have h1 : trackChanges t inst inst c d = trackChanges t inst inst false false := by
      rw [trackChanges_eq t inst inst c d hagg,
        trackChanges_eq t inst inst false false hagg, hsuit]
      simp only [Bool.and_false, Bool.false_and]
    rw [h1, trackChanges_update_eq t inst inst hagg rfl (by ring), sub_self]
    rw [updateValue_zero]
    rfl

theorem trackChanges_unsuitable_fallthrough_witness :
    (trackChanges tCount mIdle mWasActive true false
        = trackChanges tCount mIdle mWasActive false false)
      ∧ trackChanges tCount mIdle mIdle true false = .ok [] :=
  trackChanges_unsuitable_fallthrough tCount mIdle mWasActive true false
    (by decide) rfl

/-- C3 counterexample: a create event whose new state is ineligible
(`active = false`) emits an adjustment — built from the previous-state
snapshot, which the claim says is never consulted on a create. -/
theorem c3_counterexample :
    trackChanges tCount mIdle mWasActive true false
        = .ok [some (0, ("members_count", .combined (-1)))]
      ∧ tCount.callback mIdle = false :=
  ⟨rfl, rfl⟩

/-- C4 (amended): every returned sequence holds at most two entries, and
every non-null entry is a well-formed pair — the tracked field's name with a
relative increment of nonzero delta, aimed at a present parent.  On the
update fall-through path zero-delta / absent-parent entries are indeed
filtered out (no `None` survives), but on the create and delete early-return
paths a suppressed adjustment is returned as a `None` placeholder inside the
one-element sequence instead of being dropped. -/
theorem trackChanges_wellformed (t : DenormalizedTracker)
    (inst old : ChildState) (c d : Bool) (l : List (Option Adjustment))
    (h : trackChanges t inst old c d = .ok l) :
    l.length ≤ 2
      ∧ (∀ p n e, some (p, (n, e)) ∈ l →
          n = t.field ∧ ∃ dd, dd ≠ 0 ∧ e = FieldExpr.combined dd)
      ∧ (c = false → d = false → (none : Option Adjustment) ∉ l) := by
  obtain ⟨hlen, helems, hnone⟩ := trackChanges_elems t inst old c d l h
  refine ⟨hlen, ?_, hnone⟩
  intro p n e hmem
  obtain ⟨fo, delta, sign, hs, _, hx⟩ := helems _ hmem
  obtain ⟨_, hd, hu⟩ := updateValue_eq_some t fo delta sign p (n, e) hx.symm
  injection hu with hn he
  exact ⟨hn, delta * sign, mul_ne_zero hd hs, he⟩

theorem trackChanges_wellformed_witness :
    ([some ((0 : ParentId), ("members_count", FieldExpr.combined 1))] :
        List (Option Adjustment)).length ≤ 2 :=
  (trackChanges_wellformed tCountAll mActive mActive true false _ rfl).1

/-- C4 counterexample: an eligible create whose parent reference is null
returns the one-element sequence `(None,)` — the suppressed entry is not
dropped but returned as a null placeholder, so not every element of the
returned sequence is a well-formed pair. -/
theorem c4_counterexample :
    trackChanges tCount mNullActive mNullActive true false = .ok [none]
      ∧ (([none] : List (Option Adjustment)).all Option.isSome) = false :=
  ⟨rfl, rfl⟩

/-- C5 (amended): on an update whose current and previous states resolve to
the same parent, with `sign = eligible(current) - eligible(previous)`: if
`sign ≠ 0` the tracker emits the single adjustment
`(parent, delta(current) * sign)`, and if `sign = 0` it emits
`(parent, delta(current) - delta(previous))`; in BOTH cases the emission is
suppressed (nothing returned) when its delta is zero or the parent reference
is absent — the claim promised exactly one adjustment whenever `sign ≠ 0`,
but `_update_value`'s filtering applies to that branch too. -/
theorem trackChanges_same_parent (t : DenormalizedTracker)
    (inst old : ChildState) (hagg : t.aggregate ≠ .other)
    (hfo : resolveForeign inst = resolveForeign old) :
    trackChanges t inst old false false
      = .ok ((if b2i (t.callback inst) - b2i (t.callback old) ≠ 0 then
            [t.updateValue (resolveForeign inst) (deltaVal t inst)
              (b2i (t.callback inst) - b2i (t.callback old))]
          else
            [t.updateValue (resolveForeign inst)
              (deltaVal t inst - deltaVal t old) 1]).filter
            (fun x => x.isSome)) := by
  by_cases hsg : b2i (t.callback inst) - b2i (t.callback old) ≠ 0
  · rw [if_pos hsg]
    exact trackChanges_update_sign t inst old hagg hfo hsg
  · rw [if_neg hsg]
    exact trackChanges_update_eq t inst old hagg hfo (not_not.mp hsg)

theorem trackChanges_same_parent_witness :
    trackChanges tCount mActive mIdle false false
      = .ok ((if b2i (tCount.callback mActive) - b2i (tCount.callback mIdle)
              ≠ 0 then
            [tCount.updateValue (resolveForeign mActive)
              (deltaVal tCount mActive)
              (b2i (tCount.callback mActive) - b2i (tCount.callback mIdle))]
          else
            [tCount.updateValue (resolveForeign mActive)
              (deltaVal tCount mActive - deltaVal tCount mIdle) 1]).filter
            (fun x => x.isSome)) :=
  trackChanges_same_parent tCount mActive mIdle (by decide) rfl

/-- C5 counterexample: a Sum tracker with an `active`-flag callback; the
child becomes eligible (`sign = 1`) under the same present parent 0, but its
points are 0, so the returned sequence is empty — the claim promised exactly
one adjustment `(parent, sign * delta(current))` whenever `sign ≠ 0`. -/
theorem c5_counterexample :
    trackChanges tSum mActive mIdle false false = .ok []
      ∧ resolveForeign mActive = resolveForeign mIdle
      ∧ resolveForeign mActive = some 0
      ∧ b2i (tSum.callback mActive) - b2i (tSum.callback mIdle) = 1 :=
  ⟨rfl, rfl, rfl, rfl⟩

/-- C6 (confirmed): the delta is exactly 1 for a Count tracker; for a Sum
tracker it is the source attribute's value, and when the in-memory value is
an unresolved additive expression the attribute is reloaded from persisted
storage and the reloaded value is used. -/
theorem getDelta_spec (t : DenormalizedTracker) (s : ChildState) :
    (t.aggregate = .count → t.getDelta s = .ok 1)
      ∧ (∀ v, t.aggregate = .sum → s.points = .concrete v →
          t.getDelta s = .ok v)
      ∧ (∀ db, t.aggregate = .sum → s.points = .unresolved db →
          t.getDelta s = .ok ((AttrVal.unresolved db).refresh_from_db.resolve)
            ∧ (AttrVal.unresolved db).refresh_from_db.resolve = db) := by
  refine ⟨?_, ?_, ?_⟩
  · intro hA
    unfold DenormalizedTracker.getDelta
    rw [hA]
  · intro v hA hp
    unfold DenormalizedTracker.getDelta
    rw [hA, hp]
  · intro db hA hp
    constructor
    · unfold DenormalizedTracker.getDelta
      rw [hA, hp]
    · rfl

theorem getDelta_spec_witness :
    tCount.getDelta mActive = .ok 1
      ∧ tSumAll.getDelta mConcFive = .ok 5
      ∧ tSumAll.getDelta mUnresSeven = .ok 7 :=
  ⟨(getDelta_spec tCount mActive).1 rfl,
   (getDelta_spec tSumAll mConcFive).2.1 5 rfl rfl,
   by
     have h := ((getDelta_spec tSumAll mUnresSeven).2.2 7 rfl rfl).1
     rwa [((getDelta_spec tSumAll mUnresSeven).2.2 7 rfl rfl).2] at h⟩

/-- C7 (confirmed): a "related object does not exist" condition raised while
resolving the parent reference (modelled by `ParentRef.missing`) is caught
inside `track_changes`: resolution yields no parent, the run still succeeds
(the only error `track_changes` can return is the unsupported-aggregate one),
and every adjustment that is emitted targets a parent some state actually
resolved to — so the adjustment of a missing-parent side is suppressed. -/
theorem trackChanges_missing_parent (t : DenormalizedTracker)
    (inst old : ChildState) (c d : Bool) (hagg : t.aggregate ≠ .other) :
    (trackChanges t inst old c d).isOk = true
      ∧ (inst.group = .missing → resolveForeign inst = none)
      ∧ (old.group = .missing → resolveForeign old = none)
      ∧ (∀ l p u, trackChanges t inst old c d = .ok l → some (p, u) ∈ l →
          resolveForeign inst = some p ∨ resolveForeign old = some p) := by
  refine ⟨?_, ?_, ?_, ?_⟩
  · rw [trackChanges_eq t inst old c d hagg]
    rfl
  · intro hm
    unfold resolveForeign
    rw [hm]
  · intro hm
    unfold resolveForeign
    rw [hm]
  · intro l p u hok hmem
    obtain ⟨_, helems, _⟩ := trackChanges_elems t inst old c d l hok
    obtain ⟨fo, delta, sign, _, hor, hx⟩ := helems _ hmem
    have hfo : fo = some p :=
      (updateValue_eq_some t fo delta sign p u hx.symm).1
    rcases hor with hor | hor
    · exact Or.inl (by rw [← hor, hfo])
    · exact Or.inr (by rw [← hor, hfo])

theorem trackChanges_missing_parent_witness :
    (trackChanges tCount mGone mGone false true).isOk = true
      ∧ (mGone.group = .missing → resolveForeign mGone = none)
      ∧ (mGone.group = .missing → resolveForeign mGone = none)
      ∧ (∀ l p u, trackChanges tCount mGone mGone false true = .ok l →
          some (p, u) ∈ l →
          resolveForeign mGone = some p ∨ resolveForeign mGone = some p) :=
  trackChanges_missing_parent tCount mGone mGone false true (by decide)

/-- C8 (confirmed): for a tracker whose aggregate kind is neither Count nor
Sum, every invocation of `track_changes` fails with `NotImplementedError`
(`_get_delta` runs unconditionally before any branch), never silently
skipping tracking or emitting adjustments. -/
theorem trackChanges_unsupported_fails (t : DenormalizedTracker)
    (inst old : ChildState) (c d : Bool) (h : t.aggregate = .other) :
    trackChanges t inst old c d = .error .notImplemented :=
  trackChanges_other t inst old c d h

theorem trackChanges_unsupported_fails_witness :
    trackChanges tBroken mActive mActive false false
      = .error .notImplemented :=
  trackChanges_unsupported_fails tBroken mActive mActive false false rfl

/-- C9 (confirmed): every adjustment ever returned by `track_changes` carries
a relative `CombinedExpression` `F(field) + dd` — evaluated at write time as
"current stored value plus dd" — never an absolute replacement value. -/
theorem trackChanges_relative_increments (t : DenormalizedTracker)
    (inst old : ChildState) (c d : Bool) (l : List (Option Adjustment))
    (h : trackChanges t inst old c d = .ok l) :
    ∀ p n e, some (p, (n, e)) ∈ l →
      ∃ dd, e = FieldExpr.combined dd ∧ ∀ v, FieldExpr.eval e v = v + dd := by
  intro p n e hmem
  obtain ⟨_, helems, _⟩ := trackChanges_elems t inst old c d l h
  obtain ⟨fo, delta, sign, _, _, hx⟩ := helems _ hmem
  obtain ⟨_, _, hu⟩ := updateValue_eq_some t fo delta sign p (n, e) hx.symm
  injection hu with _ he
  subst he
  exact ⟨delta * sign, rfl, fun v => rfl⟩

theorem trackChanges_relative_increments_witness :
    FieldExpr.eval (FieldExpr.combined 1) 41 = 41 + 1 := by
  obtain ⟨dd, hdd, hev⟩ :=
    trackChanges_relative_increments tCountAll mActive mActive true false
      [some (0, ("members_count", FieldExpr.combined 1))] rfl
      0 "members_count" (FieldExpr.combined 1) (List.mem_singleton.mpr rfl)
  injection hdd with h1
  rw [← h1] at hev
  exact hev 41

/-- C10 (confirmed): an update event whose parent reference is absent both
before and after the mutation produces no adjustments at all, whatever the
eligibility flags or Sum attribute values did. -/
theorem trackChanges_no_parent (t : DenormalizedTracker)
    (inst old : ChildState) (hagg : t.aggregate ≠ .other)
    (hc : resolveForeign inst = none) (hp : resolveForeign old = none) :
    trackChanges t inst old false false = .ok [] := by
  have hfo : resolveForeign inst = resolveForeign old := by rw [hc, hp]
  by_cases hsg : b2i (t.callback inst) - b2i (t.callback old) ≠ 0
  · rw [trackChanges_update_sign t inst old hagg hfo hsg, hc,
      updateValue_noTarget]
    rfl
  · rw [trackChanges_update_eq t inst old hagg hfo (not_not.mp hsg), hc,
      updateValue_noTarget]
    rfl

theorem trackChanges_no_parent_witness :
    trackChanges tSum mNullFive mNullThree false false = .ok [] :=
  trackChanges_no_parent tSum mNullFive mNullThree (by decide) rfl rfl
